import Mathlib

/-
Verification of the KuCoin perpetual candles feed
(src/hummingbot/data_feed/candles_feed/kucoin_perpetual_candles/kucoin_perpetual_candles.py).

The file shallowly embeds the pure core of the feed client: the row
conversions performed by `fetch_candles` and by the websocket handler, the
bounded-deque candle window together with the merge logic of
`_process_websocket_messages_from_candles`, the paginated backfill step of
`fill_historical_candles` (with the exact Python slice and
`deque.extendleft` semantics), the keepalive loop of
`_process_websocket_messages`, the symbol resolution of
`get_exchange_trading_pair`, and `get_kucoin_base_asset`.

Python `collections.deque` with `maxlen` is embedded as a `List` kept
oldest-on-the-left: `append` adds on the right and discards the leftmost
item when full; `appendleft` adds on the left and discards the rightmost
item when full; `extendleft xs` performs `appendleft` once per element of
`xs` in order (hence inserts `xs` reversed).
-/

namespace KucoinCandles

/-! ## Row conversions (claim C1)

`fetch_candles` builds each stored record positionally from the venue REST
row: `[row[0], row[1], row[2], row[3], row[4], row[5], 0., 0., 0., 0.]`.
The websocket handler instead names the venue fields
(`open = candles[1]`, `close = candles[2]`, `high = candles[3]`,
`low = candles[4]`) and stores them in the internal order
`[timestamp, open, high, low, close, volume, ...]`. -/

/-- The record built by `fetch_candles` from one venue REST row
(kucoin_perpetual_candles.py lines 129-131): a positional copy of the
first six entries followed by four zero fields. -/
def fetchCandlesRow (row : List ℚ) : List ℚ :=
  [row.getD 0 0, row.getD 1 0, row.getD 2 0, row.getD 3 0, row.getD 4 0, row.getD 5 0,
   0, 0, 0, 0]

/-- The record built by the websocket handler from one inbound candle
payload (lines 206-221): venue fields are read by name
(`open = candles[1]`, `close = candles[2]`, `high = candles[3]`,
`low = candles[4]`, `volume = candles[5]`) and stored in the internal
order `[timestamp, open, high, low, close, volume, 0, 0, 0, 0]`; the
timestamp is converted from seconds to milliseconds. -/
def wsCandleRecord (candles : List ℚ) : List ℚ :=
  [candles.getD 0 0 * 1000, candles.getD 1 0, candles.getD 3 0, candles.getD 4 0,
   candles.getD 2 0, candles.getD 5 0, 0, 0, 0, 0]

/-- Internal record field: `high` lives at index 2 (the internal order
`[timestamp, open, high, low, close, volume, ...]` is spelled out by the
websocket handler when it assembles `candles_array`). -/
def recordHigh (rec : List ℚ) : ℚ := rec.getD 2 0

/-- Internal record field: `close` lives at index 4. -/
def recordClose (rec : List ℚ) : ℚ := rec.getD 4 0

/-- Venue REST row field: per the external interface the row order is
`[timestamp, open, close, high, low, volume]`, so the venue `high` is at
index 3. -/
def venueRowHigh (row : List ℚ) : ℚ := row.getD 3 0

/-- Venue REST row field: the venue `close` is at index 2. -/
def venueRowClose (row : List ℚ) : ℚ := row.getD 2 0

/-- Venue REST row field: the venue `low` is at index 4. -/
def venueRowLow (row : List ℚ) : ℚ := row.getD 4 0

/-! ## The candle window -/

/-- One record stored in the candle window. The merge and backfill code
inspects only the timestamp (entry 0 of the stored array, integer
milliseconds); the remaining numeric payload is abstracted into one
rational field. -/
structure CandleRec where
  ts : ℕ
  px : ℚ
deriving DecidableEq

/-- Timestamps of a window, oldest-first as stored. -/
def tsList (w : List CandleRec) : List ℕ := w.map CandleRec.ts

/-- `deque.append` with `maxlen = cap`: add on the right, discarding the
leftmost item when the deque is full (a `maxlen = 0` deque stays empty). -/
def dequeAppend (cap : ℕ) (w : List CandleRec) (r : CandleRec) : List CandleRec :=
  if cap = 0 then []
  else if cap ≤ w.length then w.drop 1 ++ [r]
  else w ++ [r]

/-- `deque.appendleft` with `maxlen = cap`: add on the left, discarding the
rightmost item when the deque is full. -/
def dequeAppendLeft (cap : ℕ) (w : List CandleRec) (r : CandleRec) : List CandleRec :=
  if cap = 0 then []
  else if cap ≤ w.length then r :: w.dropLast
  else r :: w

/-- `deque.extendleft` with `maxlen = cap`: one `appendleft` per element of
`batch`, in order (so `batch` ends up reversed at the left end). -/
def dequeExtendLeft (cap : ℕ) (w : List CandleRec) (batch : List CandleRec) : List CandleRec :=
  batch.foldl (dequeAppendLeft cap) w

/-- Modelled from the spec: `CandlesBase.ready` is not under src/; the spec
states the window is ready once `length == capacity`. -/
def isReady (cap : ℕ) (w : List CandleRec) : Bool := w.length = cap

/-- The live-path merge of `_process_websocket_messages_from_candles`
(lines 222-229): on an empty window append (and trigger the backfill, not
modelled here); if the incoming timestamp exceeds the rightmost stored
timestamp append; if it equals it, `pop()` then `append` (replace the
rightmost record); otherwise do nothing. -/
def wsUpdate (cap : ℕ) (w : List CandleRec) (r : CandleRec) : List CandleRec :=
  match w.getLast? with
  | none => dequeAppend cap w r
  | some last =>
    if last.ts < r.ts then dequeAppend cap w r
    else if r.ts = last.ts then dequeAppend cap w.dropLast r
    else w

/-- The Python slice `candles[-(missing + 1):-1]` used by
`fill_historical_candles` (line 145): drop the final row (the boundary
record at the requested end timestamp) and keep at most the last `missing`
of the remaining rows. -/
def pageSlice (page : List CandleRec) (missing : ℕ) : List CandleRec :=
  (page.dropLast).drop (page.dropLast.length - missing)

/-- One successful backfill page application (lines 144-146):
`missing_records = maxlen - len`, then
`self._candles.extendleft(candles[-(missing_records + 1):-1])`. -/
def backfillStep (cap : ℕ) (w : List CandleRec) (page : List CandleRec) : List CandleRec :=
  dequeExtendLeft cap w (pageSlice page (cap - w.length))

/-! ## The backfill loop of `fill_historical_candles` -/

/-- Outcome of one attempted REST page fetch, supplied by the environment. -/
inductive FetchResult where
  | success (page : List CandleRec)
  | failure
  | cancelled
deriving DecidableEq

/-- Whether the backfill task is still running or was cancelled. The code
has no terminal error state: there is no way for the loop to surface a
fatal condition to its owner short of cancellation. -/
inductive FillStatus where
  | running
  | cancelled
deriving DecidableEq

/-- State of the `fill_historical_candles` loop: the candle window, the
`requests_executed` counter and the task status. -/
structure FillState where
  window : List CandleRec
  requestsExecuted : ℕ
  status : FillStatus
deriving DecidableEq

/-- Observable effect of one loop iteration: seconds slept (`_sleep(1.0)`
on the retry path), whether a REST fetch was attempted, and whether the
no-data-available error was logged. -/
structure StepEffect where
  sleptSeconds : ℚ
  fetched : Bool
  loggedNoData : Bool
deriving DecidableEq

/-- The REST request the loop would issue from a given state: end
timestamp `int(self._candles[0][0])` and limit `missing_records + 1`
(lines 139-142). -/
def requestOf (cap : ℕ) (s : FillState) : Option (ℕ × ℕ) :=
  s.window.head?.map (fun r => (r.ts, cap - s.window.length + 1))

/-- One iteration of the `while not self.ready` loop of
`fill_historical_candles` (lines 137-157). If the window is full the loop
has exited (no-op). Otherwise, when `requests_executed < max_request_needed`
a fetch is attempted: on success the page is applied with `extendleft` and
the counter incremented; on a transient failure the exception is caught,
logged and the loop sleeps `1.0` seconds with the state unchanged; a
`CancelledError` is re-raised, ending the task. When the budget is
exhausted the code logs the no-data error and executes a bare `raise`;
with no active exception this raises `RuntimeError`, which the very next
`except Exception` clause catches, so the iteration merely logs, sleeps
`1.0` seconds and leaves the state unchanged. -/
def fillStep (cap maxReq : ℕ) (s : FillState) (r : FetchResult) : FillState × StepEffect :=
  if s.window.length = cap then (s, ⟨0, false, false⟩)
  else if s.requestsExecuted < maxReq then
    match r with
    | .success page =>
        ({ s with window := backfillStep cap s.window page,
                  requestsExecuted := s.requestsExecuted + 1 }, ⟨0, true, false⟩)
    | .failure => (s, ⟨1, true, false⟩)
    | .cancelled => ({ s with status := .cancelled }, ⟨0, true, false⟩)
  else
    (s, ⟨1, false, true⟩)

/-- Runs the backfill loop over a list of fetch outcomes, stopping when the
window is full or the task was cancelled. -/
def fillRun (cap maxReq : ℕ) (s : FillState) : List FetchResult → FillState
  | [] => s
  | r :: rs =>
      if s.status = FillStatus.running ∧ s.window.length ≠ cap then
        fillRun cap maxReq (fillStep cap maxReq s r).1 rs
      else s

/-! ## The keepalive loop of `_process_websocket_messages` -/

/-- State of the keepalive loop: `_last_ws_message_sent_timestamp` (updated
only when a ping frame is sent), the times at which ping frames were sent,
and the inbound messages handed to the candle handler. Times are integer
seconds. -/
structure KeepaliveState where
  lastSent : ℕ
  pingsSent : List ℕ
  delivered : List ℕ
deriving DecidableEq

/-- One iteration of the `while True` loop (lines 187-200). The iteration
computes `seconds_until_next_ping = _ping_interval - (now -
_last_ws_message_sent_timestamp)` and runs the message consumer under
`asyncio.wait_for` with that timeout, so the deadline is
`lastSent + pingInterval` regardless of when the iteration starts. Every
inbound message arriving before the deadline is consumed by
`_process_websocket_messages_from_candles`, which never touches the timer
state; the consumer never returns, so the wait always ends in
`TimeoutError`, at which point exactly one ping frame is sent and
`_last_ws_message_sent_timestamp` is set to the current time (the
deadline). `msgs` is the schedule of inbound message arrival times. -/
def keepaliveIter (pingInterval : ℕ) (s : KeepaliveState) (msgs : List ℕ) : KeepaliveState :=
  let deadline := s.lastSent + pingInterval
  { lastSent := deadline
    pingsSent := s.pingsSent ++ [deadline]
    delivered := s.delivered ++ msgs.filter (fun m => s.lastSent ≤ m ∧ m < deadline) }

/-- `n` iterations of the keepalive loop against a fixed inbound message
schedule. -/
def keepaliveRun (pingInterval : ℕ) (s : KeepaliveState) (msgs : List ℕ) : ℕ → KeepaliveState
  | 0 => s
  | n + 1 => keepaliveRun pingInterval (keepaliveIter pingInterval s msgs) msgs n

/-! ## Symbol resolution -/

/-- `get_exchange_trading_pair` (lines 105-106): returns the
kucoin-formatted pair string whenever the cached symbol dictionary is
non-empty, and `None` otherwise; the `trading_pair` argument and the
dictionary contents are never consulted. -/
def get_exchange_trading_pair (symbolsDict : List (String × String))
    (kucoinBase quote tradingPair : String) : Option String :=
  if symbolsDict.isEmpty then none else some (kucoinBase ++ "-" ++ quote)

/-- `get_kucoin_base_asset` (lines 36-38): iterates
`CONSTANTS.HB_TO_KUCOIN_MAP.items()` but returns inside the first loop
iteration, so only the first map entry is ever consulted; an empty map
yields `None` (the loop body never runs). The map itself lives in the
constants module, so it is passed as a parameter here. -/
def get_kucoin_base_asset (hbToKucoinMap : List (String × String))
    (hbBaseAsset : String) : Option String :=
  match hbToKucoinMap with
  | [] => none
  | (hbAsset, kucoinValue) :: _ =>
      some (if hbAsset = hbBaseAsset then kucoinValue else hbBaseAsset)

/-- The consumer-facing snapshot `candles_df` (lines 76-79):
`pd.DataFrame(self._candles, ...).sort_values(by="timestamp",
ascending=True)` — the stored records sorted ascending by timestamp
(the sort itself modelled as insertion sort; the claim constrains only
order and multiset). -/
def candles_df (w : List CandleRec) : List CandleRec :=
  List.insertionSort (fun a b => a.ts ≤ b.ts) w

instance : IsTotal CandleRec (fun a b => a.ts ≤ b.ts) :=
  ⟨fun a b => Nat.le_total a.ts b.ts⟩

instance : IsTrans CandleRec (fun a b => a.ts ≤ b.ts) :=
  ⟨fun _ _ _ h h2 => le_trans h h2⟩

/-! ## Helper lemmas -/

lemma keepaliveRun_lastSent (p : ℕ) (msgs : List ℕ) :
    ∀ (n : ℕ) (s : KeepaliveState),
      (keepaliveRun p s msgs n).lastSent = s.lastSent + n * p
  | 0, _ => by simp [keepaliveRun]
  | n + 1, s => by
      rw [keepaliveRun, keepaliveRun_lastSent p msgs n]
      show s.lastSent + p + n * p = s.lastSent + (n + 1) * p
      ring

lemma dequeAppend_not_full (cap : ℕ) (w : List CandleRec) (r : CandleRec)
    (h : w.length < cap) : dequeAppend cap w r = w ++ [r] := by
  unfold dequeAppend
  rw [if_neg (by omega), if_neg (by omega)]

lemma dequeAppend_full (cap : ℕ) (w : List CandleRec) (r : CandleRec)
    (h0 : 0 < cap) (h : cap ≤ w.length) : dequeAppend cap w r = w.drop 1 ++ [r] := by
  unfold dequeAppend
  rw [if_neg (by omega), if_pos h]

lemma dequeAppendLeft_not_full (cap : ℕ) (w : List CandleRec) (x : CandleRec)
    (h : w.length < cap) : dequeAppendLeft cap w x = x :: w := by
  unfold dequeAppendLeft
  rw [if_neg (by omega), if_neg (by omega)]

lemma dequeExtendLeft_no_evict (cap : ℕ) :
    ∀ (batch w : List CandleRec), batch.length + w.length ≤ cap →
      dequeExtendLeft cap w batch = batch.reverse ++ w
  | [], w, _ => by simp [dequeExtendLeft]
  | x :: bs, w, h => by
      have hw : w.length < cap := by
        simp only [List.length_cons] at h; omega
      have hstep : dequeExtendLeft cap w (x :: bs)
          = dequeExtendLeft cap (x :: w) bs := by
        simp [dequeExtendLeft, dequeAppendLeft_not_full cap w x hw]
      rw [hstep, dequeExtendLeft_no_evict cap bs (x :: w)
        (by simp only [List.length_cons] at h ⊢; omega)]
      simp

lemma pageSlice_length (page : List CandleRec) (m : ℕ) :
    (pageSlice page m).length ≤ m := by
  unfold pageSlice
  rw [List.length_drop]
  omega

lemma pageSlice_sublist (page : List CandleRec) (m : ℕ) :
    (pageSlice page m).Sublist page.dropLast :=
  List.drop_sublist _ _

lemma mem_dropLast_ts_lt (l : List CandleRec) (z : CandleRec)
    (hl : (tsList l).Pairwise (· < ·)) (hz : l.getLast? = some z) :
    ∀ x ∈ l.dropLast, x.ts < z.ts := by
  intro x hx
  have hne : l ≠ [] := by
    intro h; subst h; simp at hz
  have hgl : l.getLast hne = z := by
    rw [List.getLast?_eq_getLast_of_ne_nil hne] at hz
    exact Option.some_injective _ hz
  have hdecomp : l.dropLast ++ [l.getLast hne] = l := List.dropLast_append_getLast hne
  rw [← hdecomp, tsList, List.map_append] at hl
  have hxz := (List.pairwise_append.mp hl).2.2 x.ts
    (List.mem_map_of_mem CandleRec.ts hx) (l.getLast hne).ts (by simp)
  rwa [hgl] at hxz

lemma head_ts_le_mem (l : List CandleRec) (a : CandleRec)
    (hl : (tsList l).Pairwise (· < ·)) (ha : l.head? = some a) :
    ∀ y ∈ l, a.ts ≤ y.ts := by
  cases l with
  | nil => simp at ha
  | cons b t =>
      have hab : b = a := by simpa using ha
      subst hab
      intro y hy
      rcases List.mem_cons.mp hy with rfl | hyt
      · exact le_refl _
      · exact le_of_lt ((List.pairwise_cons.mp (by simpa [tsList] using hl)).1
          y.ts (List.mem_map_of_mem CandleRec.ts hyt))

lemma nodup_of_ts_pairwise_lt {l : List CandleRec}
    (h : (tsList l).Pairwise (· < ·)) : (tsList l).Nodup :=
  h.imp ne_of_lt

/-! ## Claim theorems -/

/-- C1: the claim states that `fetch_candles` explicitly remaps the venue
row order `[timestamp, open, close, high, low, volume]` into the internal
order `[timestamp, open, high, low, close, volume, ...]`, so that the
stored high equals the venue high and the stored close equals the venue
close. The code instead copies the first six entries positionally: on the
venue row `[1000, 10, 20, 30, 5, 100]` the stored record carries the venue
close `20` in its high field (the venue high is `30`) and the venue low
`5` in its close field (the venue close is `20`), while the websocket path
of the same file performs the correct named remapping on the same values. -/
theorem claim_C1_fetch_row_positional_reuse :
    recordHigh (fetchCandlesRow [1000, 10, 20, 30, 5, 100])
        = venueRowClose [1000, 10, 20, 30, 5, 100] ∧
    recordHigh (fetchCandlesRow [1000, 10, 20, 30, 5, 100])
        ≠ venueRowHigh [1000, 10, 20, 30, 5, 100] ∧
    recordClose (fetchCandlesRow [1000, 10, 20, 30, 5, 100])
        = venueRowLow [1000, 10, 20, 30, 5, 100] ∧
    recordClose (fetchCandlesRow [1000, 10, 20, 30, 5, 100])
        ≠ venueRowClose [1000, 10, 20, 30, 5, 100] ∧
    recordHigh (wsCandleRecord [0, 10, 20, 30, 5, 100])
        = venueRowHigh [0, 10, 20, 30, 5, 100] ∧
    recordClose (wsCandleRecord [0, 10, 20, 30, 5, 100])
        = venueRowClose [0, 10, 20, 30, 5, 100] := by
  refine ⟨rfl, by decide, rfl, by decide, rfl, rfl⟩

/-- C3 counterexample: the claim states that if inbound messages keep
arriving at intervals shorter than `pingInterval`, no ping frame is ever
sent. With `pingInterval = 10`, last ping at time `0` and messages
arriving every second, one keepalive iteration still sends a ping at time
`10`: the `wait_for` deadline is anchored to
`_last_ws_message_sent_timestamp`, which message consumption never
updates. -/
theorem claim_C3_counterexample :
    (keepaliveIter 10 ⟨0, [], []⟩ [1, 2, 3, 4, 5, 6, 7, 8, 9]).pingsSent = [10] ∧
    (keepaliveIter 10 ⟨0, [], []⟩ [1, 2, 3, 4, 5, 6, 7, 8, 9]).delivered
        = [1, 2, 3, 4, 5, 6, 7, 8, 9] ∧
    (keepaliveIter 10 ⟨0, [], []⟩ [1, 2, 3, 4, 5, 6, 7, 8, 9]).pingsSent ≠ [] := by
  decide

/-- C3 amended: each keepalive iteration sends exactly one ping, at
deadline `lastSent + pingInterval`; the deadline is anchored only to the
time the last ping was sent, so the ping schedule is identical for every
inbound message schedule (messages are consumed but never defer or
suppress pings), and after `n` iterations pings have been sent at each of
the `n` successive deadlines. -/
theorem claim_C3_pings_periodic_from_last_ping (p : ℕ) (s : KeepaliveState)
    (msgs msgs2 : List ℕ) :
    (keepaliveIter p s msgs).pingsSent = s.pingsSent ++ [s.lastSent + p] ∧
    (keepaliveIter p s msgs).lastSent = s.lastSent + p ∧
    (keepaliveIter p s msgs).pingsSent = (keepaliveIter p s msgs2).pingsSent ∧
    (∀ n : ℕ, (keepaliveRun p s msgs n).lastSent = s.lastSent + n * p) :=
  ⟨rfl, rfl, rfl, fun n => keepaliveRun_lastSent p msgs n s⟩

/-- C5: the claim states that the backfill prepend preserves the strictly
ascending timestamp invariant for a batch of strictly older, ascending
records. The code prepends with `deque.extendleft` and no reversal, so the
batch lands reversed: with capacity `5`, window `[1000]` and the fetched
ascending page `[600, 700, 800, 900, 1000]`, the window becomes
`[900, 800, 700, 600, 1000]`, which is not ascending. -/
theorem claim_C5_backfill_breaks_ascending_order :
    tsList (backfillStep 5 [⟨1000, 0⟩]
        [⟨600, 0⟩, ⟨700, 0⟩, ⟨800, 0⟩, ⟨900, 0⟩, ⟨1000, 0⟩])
      = [900, 800, 700, 600, 1000] ∧
    ¬ (tsList (backfillStep 5 [⟨1000, 0⟩]
        [⟨600, 0⟩, ⟨700, 0⟩, ⟨800, 0⟩, ⟨900, 0⟩, ⟨1000, 0⟩])).Pairwise (· < ·) := by
  decide

/-- C7 counterexample: the claim states that after the symbol map is
populated, resolving a pair absent from the instrument list returns the
not-ready sentinel (`None`). With the populated map
`[("ETH-USDT", "ETHUSDTM")]` and configured pair `XBT-USDT` (absent from
the map), `get_exchange_trading_pair` returns `some "XBT-USDT"`, not
`none`: it only tests whether the map is non-empty. -/
theorem claim_C7_counterexample :
    get_exchange_trading_pair [("ETH-USDT", "ETHUSDTM")] "XBT" "USDT" "XBT-USDT"
      = some "XBT-USDT" ∧
    "XBT-USDT" ∉ (List.map Prod.fst [("ETH-USDT", "ETHUSDTM")]) := by
  decide

/-- C7 amended: once the symbol map is non-empty, `get_exchange_trading_pair`
returns the kucoin-formatted pair string for the configured assets
regardless of whether the pair is present in the map; the `None` sentinel
is returned exactly when the map is empty. -/
theorem claim_C7_amended_resolution_ignores_membership
    (symbolsDict : List (String × String)) (kucoinBase quote tradingPair : String) :
    (symbolsDict = [] →
      get_exchange_trading_pair symbolsDict kucoinBase quote tradingPair = none) ∧
    (symbolsDict ≠ [] →
      get_exchange_trading_pair symbolsDict kucoinBase quote tradingPair
        = some (kucoinBase ++ "-" ++ quote)) := by
  constructor <;> intro h <;>
    simp [get_exchange_trading_pair, List.isEmpty_iff, h]

/-- C7 amended witness at a concrete populated map and absent pair. -/
theorem claim_C7_amended_witness :
    get_exchange_trading_pair [("ETH-USDT", "ETHUSDTM")] "XBT" "USDT" "XBT-USDT"
      = some ("XBT" ++ "-" ++ "USDT") :=
  (claim_C7_amended_resolution_ignores_membership
      [("ETH-USDT", "ETHUSDTM")] "XBT" "USDT" "XBT-USDT").2 (by decide)

/-- C9: for every internal window state, the consumer-facing snapshot
`candles_df` returns the same multiset of records sorted ascending by
timestamp. -/
theorem claim_C9_snapshot_sorted_ascending (w : List CandleRec) :
    (candles_df w).Perm w ∧ (tsList (candles_df w)).Sorted (· ≤ ·) := by
  refine ⟨List.perm_insertionSort _ w, ?_⟩
  have h := List.sorted_insertionSort (fun a b : CandleRec => a.ts ≤ b.ts) w
  simpa [tsList, List.Sorted, List.pairwise_map] using h

/-- C10: `get_kucoin_base_asset` consults only the first entry of the
human-to-KuCoin map: it returns that entry's value when the configured
base asset equals the first key and otherwise returns the base asset
unchanged; the result does not depend on the remaining entries, even when
a later entry would apply. -/
theorem claim_C10_first_entry_only (hbAsset kucoinValue : String)
    (rest rest2 : List (String × String)) (hbBaseAsset : String) :
    get_kucoin_base_asset ((hbAsset, kucoinValue) :: rest) hbBaseAsset
      = some (if hbAsset = hbBaseAsset then kucoinValue else hbBaseAsset) ∧
    get_kucoin_base_asset ((hbAsset, kucoinValue) :: rest) hbBaseAsset
      = get_kucoin_base_asset ((hbAsset, kucoinValue) :: rest2) hbBaseAsset :=
  ⟨rfl, rfl⟩

/-- C2: the claim states that once the request budget is exhausted with
the window still short of capacity, the loop signals the fatal condition
to its owner and stops permanently. In the code the bare `raise` is caught
by the very next `except Exception` clause, so every subsequent iteration
is a no-op that logs, sleeps one second and loops again: the state never
changes, no further fetch is attempted, the status never leaves `running`
(nothing is surfaced to the owner) and the window stays not ready — the
loop retries forever instead of stopping. -/
theorem claim_C2_budget_exhausted_loop_never_stops (cap maxReq : ℕ) (s : FillState)
    (hrun : s.status = FillStatus.running) (hshort : s.window.length < cap)
    (hexh : maxReq ≤ s.requestsExecuted) :
    (∀ r : FetchResult, fillStep cap maxReq s r = (s, ⟨1, false, true⟩)) ∧
    (∀ rs : List FetchResult, fillRun cap maxReq s rs = s) ∧
    isReady cap s.window = false := by
  have hne : s.window.length ≠ cap := Nat.ne_of_lt hshort
  have hstep : ∀ r : FetchResult, fillStep cap maxReq s r = (s, ⟨1, false, true⟩) := by
    intro r
    unfold fillStep
    rw [if_neg hne, if_neg (Nat.not_lt.mpr hexh)]
  refine ⟨hstep, ?_, ?_⟩
  · intro rs
    induction rs with
    | nil => rfl
    | cons r rs ih =>
        rw [fillRun, if_pos ⟨hrun, hne⟩, hstep r]
        exact ih
  · simp [isReady, hne]

/-- C2 witness: capacity 3, budget 2 already spent, window holding one
record; both a further fetch outcome and a failure leave the loop state
untouched and the window not ready. -/
theorem claim_C2_witness :
    fillRun 3 2 ⟨[⟨1000, 0⟩], 2, FillStatus.running⟩
        [FetchResult.failure, FetchResult.success [⟨900, 0⟩, ⟨1000, 0⟩]]
      = ⟨[⟨1000, 0⟩], 2, FillStatus.running⟩ ∧
    isReady 3 [(⟨1000, 0⟩ : CandleRec)] = false := by
  have h := claim_C2_budget_exhausted_loop_never_stops 3 2
    ⟨[⟨1000, 0⟩], 2, FillStatus.running⟩ rfl (by decide) (by decide)
  exact ⟨h.2.1 _, h.2.2⟩

/-- C8: on a transient fetch failure the loop state is unchanged (so the
successful-request counter is not incremented and the reissued request has
the same end timestamp and limit), the retry sleeps exactly one second;
a cancellation at the fetch suspension point ends the task immediately
with no retry, window and counter untouched. -/
theorem claim_C8_transient_failure_retries_same_request (cap maxReq : ℕ) (s : FillState)
    (hnotready : s.window.length ≠ cap) (hbudget : s.requestsExecuted < maxReq) :
    fillStep cap maxReq s FetchResult.failure = (s, ⟨1, true, false⟩) ∧
    requestOf cap (fillStep cap maxReq s FetchResult.failure).1 = requestOf cap s ∧
    fillStep cap maxReq s FetchResult.cancelled
      = ({ s with status := FillStatus.cancelled }, ⟨0, true, false⟩) ∧
    (fillStep cap maxReq s FetchResult.cancelled).1.window = s.window ∧
    (fillStep cap maxReq s FetchResult.cancelled).1.requestsExecuted
      = s.requestsExecuted := by
  have h1 : fillStep cap maxReq s FetchResult.failure = (s, ⟨1, true, false⟩) := by
    unfold fillStep
    rw [if_neg hnotready, if_pos hbudget]
  have h2 : fillStep cap maxReq s FetchResult.cancelled
      = ({ s with status := FillStatus.cancelled }, ⟨0, true, false⟩) := by
    unfold fillStep
    rw [if_neg hnotready, if_pos hbudget]
  exact ⟨h1, by rw [h1], h2, by rw [h2], by rw [h2]⟩

/-- C8 witness: capacity 3, no request spent yet, window `[1000]`; the
failed attempt leaves the state unchanged and the next request again ends
at timestamp 1000 with limit 3. -/
theorem claim_C8_witness :
    fillStep 3 2 ⟨[⟨1000, 0⟩], 0, FillStatus.running⟩ FetchResult.failure
      = (⟨[⟨1000, 0⟩], 0, FillStatus.running⟩, ⟨1, true, false⟩) ∧
    requestOf 3 ⟨[⟨1000, 0⟩], 0, FillStatus.running⟩ = some (1000, 3) := by
  have h := claim_C8_transient_failure_retries_same_request 3 2
    ⟨[⟨1000, 0⟩], 0, FillStatus.running⟩ (by decide) (by decide)
  exact ⟨h.1, by decide⟩

/-- C4: for every window at or below capacity whose stored timestamps are
strictly ascending and whose newest (rightmost) record is `last`, merging
an incoming record `r` has exactly one of three effects: equal timestamp
replaces the newest record in place (length unchanged); a newer timestamp
appends, growing the window unless it is at capacity, in which case the
oldest record is evicted (length unchanged, incoming record present, old
oldest timestamp absent); an older timestamp leaves the window unchanged
and raises no error. -/
theorem claim_C4_merge_trichotomy (cap : ℕ) (w : List CandleRec) (r last : CandleRec)
    (hlast : w.getLast? = some last) (hlen : w.length ≤ cap)
    (hsorted : (tsList w).Pairwise (· < ·)) :
    (r.ts = last.ts →
      wsUpdate cap w r = w.dropLast ++ [r] ∧ (wsUpdate cap w r).length = w.length) ∧
    (last.ts < r.ts → w.length < cap →
      wsUpdate cap w r = w ++ [r] ∧ (wsUpdate cap w r).length = w.length + 1) ∧
    (last.ts < r.ts → w.length = cap →
      wsUpdate cap w r = w.drop 1 ++ [r] ∧ (wsUpdate cap w r).length = w.length ∧
      r ∈ wsUpdate cap w r ∧
      ∀ old, w.head? = some old → old.ts ∉ tsList (wsUpdate cap w r)) ∧
    (r.ts < last.ts → wsUpdate cap w r = w) := by
  have hw : w ≠ [] := by
    intro h; subst h; simp at hlast
  have hpos : 0 < w.length := List.length_pos.mpr hw
  have hup : wsUpdate cap w r =
      (if last.ts < r.ts then dequeAppend cap w r
       else if r.ts = last.ts then dequeAppend cap w.dropLast r
       else w) := by
    rw [wsUpdate, hlast]
  refine ⟨?_, ?_, ?_, ?_⟩
  · intro heq
    have hdl : w.dropLast.length < cap := by
      rw [List.length_dropLast]; omega
    have hres : wsUpdate cap w r = w.dropLast ++ [r] := by
      rw [hup, if_neg (by omega), if_pos heq]
      exact dequeAppend_not_full cap w.dropLast r hdl
    refine ⟨hres, ?_⟩
    rw [hres, List.length_append, List.length_dropLast]
    simp; omega
  · intro hgt hnotfull
    have hres : wsUpdate cap w r = w ++ [r] := by
      rw [hup, if_pos hgt]
      exact dequeAppend_not_full cap w r hnotfull
    refine ⟨hres, by rw [hres, List.length_append]; rfl⟩
  · intro hgt hfull
    have hres : wsUpdate cap w r = w.drop 1 ++ [r] := by
      rw [hup, if_pos hgt]
      exact dequeAppend_full cap w r (by omega) (by omega)
    refine ⟨hres, ?_, ?_, ?_⟩
    · rw [hres, List.length_append, List.length_drop]
      simp; omega
    · rw [hres]
      exact List.mem_append_right _ (by simp)
    · intro old hold hmem
      cases w with
      | nil => simp at hold
      | cons a t =>
          obtain rfl : a = old := by simpa using hold
          obtain ⟨hhead, _⟩ := List.pairwise_cons.mp
            (show (a.ts :: t.map CandleRec.ts).Pairwise (· < ·) from hsorted)
          have hlm : last ∈ a :: t :=
            List.mem_of_mem_getLast? (Option.mem_def.mpr hlast)
          have hle : a.ts ≤ last.ts := by
            rcases List.mem_cons.mp hlm with h | h
            · simp [h]
            · exact le_of_lt (hhead last.ts (List.mem_map_of_mem CandleRec.ts h))
          rw [hres] at hmem
          simp only [tsList, List.drop_succ_cons, List.drop_zero, List.map_append,
            List.mem_append, List.map_cons, List.map_nil, List.mem_singleton] at hmem
          rcases hmem with h1 | h2
          · exact lt_irrefl _ (hhead _ h1)
          · omega
  · intro hlt
    rw [hup, if_neg (by omega), if_neg (by omega)]

/-- C4 witness: capacity 2, window `[(1, 5), (2, 6)]`; a newer record at
t = 3 evicts the oldest, an equal-timestamp record at t = 2 replaces the
newest in place, and a stale record at t = 1 leaves the window unchanged. -/
theorem claim_C4_merge_witness :
    wsUpdate 2 [⟨1, 5⟩, ⟨2, 6⟩] ⟨3, 7⟩ = [⟨2, 6⟩, ⟨3, 7⟩] ∧
    wsUpdate 2 [⟨1, 5⟩, ⟨2, 6⟩] ⟨2, 9⟩ = [⟨1, 5⟩, ⟨2, 9⟩] ∧
    wsUpdate 2 [⟨1, 5⟩, ⟨2, 6⟩] ⟨1, 9⟩ = [⟨1, 5⟩, ⟨2, 6⟩] := by
  have h1 := claim_C4_merge_trichotomy 2 [⟨1, 5⟩, ⟨2, 6⟩] ⟨3, 7⟩ ⟨2, 6⟩
    rfl (by decide) (by decide)
  have h2 := claim_C4_merge_trichotomy 2 [⟨1, 5⟩, ⟨2, 6⟩] ⟨2, 9⟩ ⟨2, 6⟩
    rfl (by decide) (by decide)
  have h3 := claim_C4_merge_trichotomy 2 [⟨1, 5⟩, ⟨2, 6⟩] ⟨1, 9⟩ ⟨2, 6⟩
    rfl (by decide) (by decide)
  exact ⟨(h1.2.2.1 (by decide) (by decide)).1, (h2.1 (by decide)).1,
    h3.2.2.2 (by decide)⟩

/-- C6: one backfill page application on a non-empty strictly ascending
window, fed a strictly ascending page whose final row sits exactly at the
oldest known timestamp (the overlap record the slice excludes), never
exceeds capacity and never duplicates a timestamp already present. -/
theorem claim_C6_backfill_no_overflow_no_duplicate (cap : ℕ) (w page : List CandleRec)
    (hne : w ≠ []) (hlen : w.length ≤ cap)
    (hws : (tsList w).Pairwise (· < ·))
    (hps : (tsList page).Pairwise (· < ·))
    (hedge : (page.getLast?).map CandleRec.ts = (w.head?).map CandleRec.ts) :
    (backfillStep cap w page).length ≤ cap ∧
    (tsList (backfillStep cap w page)).Nodup := by
  obtain ⟨a, t, rfl⟩ : ∃ a t, w = a :: t := by
    cases w with
    | nil => exact absurd rfl hne
    | cons a t => exact ⟨a, t, rfl⟩
  have hbl := pageSlice_length page (cap - (a :: t).length)
  have hsum : (pageSlice page (cap - (a :: t).length)).length + (a :: t).length ≤ cap := by
    omega
  have hstep : backfillStep cap (a :: t) page
      = (pageSlice page (cap - (a :: t).length)).reverse ++ (a :: t) :=
    dequeExtendLeft_no_evict cap _ _ hsum
  have hpagene : page ≠ [] := by
    intro h; subst h; simp at hedge
  have hz : page.getLast? = some (page.getLast hpagene) :=
    List.getLast?_eq_getLast_of_ne_nil hpagene
  have hzts : (page.getLast hpagene).ts = a.ts := by
    rw [hz] at hedge
    simpa using hedge
  have hbatch_lt : ∀ x ∈ pageSlice page (cap - (a :: t).length), x.ts < a.ts := by
    intro x hx
    have := mem_dropLast_ts_lt page (page.getLast hpagene) hps hz x
      ((pageSlice_sublist page _).subset hx)
    omega
  have hw_ge : ∀ y ∈ a :: t, a.ts ≤ y.ts := head_ts_le_mem _ a hws rfl
  constructor
  · rw [hstep, List.length_append, List.length_reverse]
    omega
  · rw [hstep, tsList, List.map_append, List.nodup_append]
    refine ⟨?_, ?_, ?_⟩
    · rw [List.map_reverse, List.nodup_reverse]
      exact (List.Pairwise.sublist
        (((pageSlice_sublist page _).trans (List.dropLast_sublist page)).map
          CandleRec.ts) hps).imp ne_of_lt
    · exact nodup_of_ts_pairwise_lt hws
    · intro x hx hy
      rw [List.map_reverse, List.mem_reverse] at hx
      obtain ⟨c, hc, rfl⟩ := List.mem_map.mp hx
      obtain ⟨y, hy2, hyx⟩ := List.mem_map.mp hy
      have h1 := hbatch_lt c hc
      have h2 := hw_ge y hy2
      omega

/-- C6 witness: capacity 5, window `[1000]`, fetched ascending page
`[600, 700, 800, 900, 1000]` (final row at the oldest known timestamp):
the application stays within capacity and produces no duplicate
timestamp. -/
theorem claim_C6_witness :
    (backfillStep 5 [⟨1000, 0⟩]
        [⟨600, 0⟩, ⟨700, 0⟩, ⟨800, 0⟩, ⟨900, 0⟩, ⟨1000, 0⟩]).length ≤ 5 ∧
    (tsList (backfillStep 5 [⟨1000, 0⟩]
        [⟨600, 0⟩, ⟨700, 0⟩, ⟨800, 0⟩, ⟨900, 0⟩, ⟨1000, 0⟩])).Nodup :=
  claim_C6_backfill_no_overflow_no_duplicate 5 [⟨1000, 0⟩]
    [⟨600, 0⟩, ⟨700, 0⟩, ⟨800, 0⟩, ⟨900, 0⟩, ⟨1000, 0⟩]
    (by decide) (by decide) (by decide) (by decide) (by decide)

end KucoinCandles
